import Mathlib

/-!
Verification of the fuzzy_search pattern generator (src/src/lib.rs).

The Rust source is shallowly embedded below: every pattern-building function
is translated into a pure Lean function over `String` / `List Char`.
Rust `usize` values become `Nat`; the `f32` field `required_char_ratio`
(clamped to [0,1] by the builder and compared/multiplied only with small
constants) is modelled as an exact rational `ℚ`.
-/

namespace FuzzySearch

/-- Code point of a character, as a natural number. -/
def cp (c : Char) : Nat := c.toNat

/-- Unicode White_Space property, as used by Rust `char::is_whitespace`
(behind `str::trim` and `str::split_whitespace`) and by the regex class `\s`. -/
def isUnicodeWs (c : Char) : Bool :=
  let n := cp c
  (9 ≤ n && n ≤ 13) || n == 32 || n == 133 || n == 160 || n == 5760 ||
  (8192 ≤ n && n ≤ 8202) || n == 8232 || n == 8233 || n == 8239 || n == 8287 ||
  n == 12288

/-- Rust `char::is_ascii_punctuation`: the four ASCII punctuation ranges
`!..\/`, `:..@`, `[..` (backquote), and the brace-to-tilde range. -/
def isAsciiPunct (c : Char) : Bool :=
  let n := cp c
  (33 ≤ n && n ≤ 47) || (58 ≤ n && n ≤ 64) || (91 ≤ n && n ≤ 96) ||
  (123 ≤ n && n ≤ 126)

/-- Rust `char::is_ascii_digit`. -/
def isAsciiDigit (c : Char) : Bool := 48 ≤ cp c && cp c ≤ 57

/-- Rust `char::is_ascii`. -/
def isAsciiChar (c : Char) : Bool := cp c ≤ 127

/-- Characters escaped by `fancy_regex::escape` (the regex meta characters:
backslash, dot, plus, star, question mark, parentheses, pipe, square and curly
brackets, caret, dollar, hash, ampersand, hyphen, tilde). -/
def isMeta (c : Char) : Bool :=
  let n := cp c
  n == 92 || n == 46 || n == 43 || n == 42 || n == 63 || n == 40 || n == 41 ||
  n == 124 || n == 91 || n == 93 || n == 123 || n == 125 || n == 94 ||
  n == 36 || n == 35 || n == 38 || n == 45 || n == 126

/-- Character-by-character body of `fancy_regex::escape`: a meta character is
preceded by a backslash, every other character is kept verbatim. -/
def escape_chars : List Char → List Char
  | [] => []
  | c :: rest => (if isMeta c then ['\\', c] else [c]) ++ escape_chars rest

/-- Embedding of `fancy_regex::escape`. -/
def regex_escape (s : String) : String := String.mk (escape_chars s.toList)

/-- Embedding of `FuzzyError` (src/src/lib.rs lines 47-55); the payloads of
`InvalidPattern` and `RegexError` are irrelevant to pattern generation. -/
inductive FuzzyError where
  | InvalidPattern (msg : String)
  | RegexError
  | EmptyPattern
deriving DecidableEq, Repr

/-- Embedding of `FuzzyConfig` (src/src/lib.rs lines 79-99), with the builder
defaults as default field values.  `required_char_ratio` is an `f32` clamped
to [0,1] by the builder setter; it is modelled as an exact rational. -/
structure FuzzyConfig where
  search_term : String
  min_word_length : Nat := 3
  required_char_ratio : ℚ := 1/2
  case_sensitive : Bool := false
  max_char_gap : Nat := 10
deriving DecidableEq, Repr

/-- Gap fragment inserted between consecutive required characters
(src/src/lib.rs lines 217-238): empty for gap 0, a bounded non-whitespace
run for gaps up to 10, a bounded any-character run for larger gaps. -/
def between_pattern (g : Nat) : String :=
  if g > 0 then
    if g > 10 then
      ".\x7b0," ++ toString g ++ "\x7d"
    else
      "[^\\s]\x7b0," ++ toString g ++ "\x7d"
  else
    ""

/-- Per-character fragment of `create_word_pattern` (src/src/lib.rs lines
190-213).  The closure reads only `config.case_sensitive`, passed here
directly.  The branch guard ensures the final branch only ever sees ASCII
characters, for which Rust `char::to_lowercase` / `char::to_uppercase`
coincide with the ASCII case maps `Char.toLower` / `Char.toUpper`. -/
def charFragment (case_sensitive : Bool) (c : Char) : String :=
  let escaped := regex_escape (String.mk [c])
  if isAsciiPunct c || isAsciiDigit c || !isAsciiChar c then
    "(?:" ++ escaped ++ ")?"
  else if case_sensitive then
    escaped
  else
    "[" ++ String.mk [c.toLower] ++ String.mk [c.toUpper] ++ "]"

/-- Embedding of the Rust accumulation loop
`for (i, c) in frags { if i > 0 { push sep }; push c }`:
the Boolean component records whether anything was pushed yet. -/
def loopAppend (sep : String) (frags : List String) : String :=
  (frags.foldl (fun p c => (p.1 ++ (if p.2 then sep else "") ++ c, true))
    (("" : String), false)).1

/-- Separator-joined concatenation (the semantics of Rust `Vec::join` and of
the phrase "joined by" in the specification). -/
def joinSep (sep : String) : List String → String
  | [] => ""
  | [f] => f
  | f :: rest => f ++ sep ++ joinSep sep rest

/-- Embedding of `create_word_pattern` (src/src/lib.rs lines 176-294).
Rust `chars.split_at(required_chars)` is modelled by `take`/`drop`; the two
agree whenever `required_chars ≤ chars.length`, which holds for every
builder-constructible configuration (ratio clamped to [0,1], and the
splitting branch is only reached for ratio ≤ 0.9). -/
def create_word_pattern (config : FuzzyConfig) (word : String) : String :=
  if word.toList.length = 1 then
    "(?:[^\\s]*?" ++ regex_escape word ++ "[^\\s]*?)"
  else
    let chars := word.toList.map (charFragment config.case_sensitive)
    let between := between_pattern config.max_char_gap
    let char_pattern :=
      if config.required_char_ratio > 9/10 then
        loopAppend between chars
      else
        let required_chars :=
          (⌈(chars.length : ℚ) * config.required_char_ratio⌉).toNat
        let required := chars.take required_chars
        let optionalPart := chars.drop required_chars
        loopAppend between required ++
          (if optionalPart.isEmpty then "" else
            "(?:" ++ loopAppend between (optionalPart.map (fun c => c ++ "?"))
              ++ ")?")
    "(?:" ++ char_pattern ++ ")"

/-- Embedding of Rust `str::split` with a character predicate: substrings
between separator occurrences, keeping empty segments (so a leading,
trailing, or doubled separator yields an empty segment). -/
def rustSplit (p : Char → Bool) : List Char → List (List Char)
  | [] => [[]]
  | c :: rest =>
    if p c then
      [] :: rustSplit p rest
    else
      match rustSplit p rest with
      | [] => [[c]]
      | s :: ss => (c :: s) :: ss

/-- Per-word step of `create_fuzzy_pattern` (src/src/lib.rs lines 145-160):
a word containing ASCII punctuation is split at punctuation characters, the
non-empty sub-runs are encoded independently and joined by the flexible
separator class; any other word is encoded as a single run. -/
def word_pattern_with_punct (config : FuzzyConfig) (word : String) : String :=
  if word.toList.any isAsciiPunct then
    joinSep ("[\\s\\p\x7bZ\x7d\\p\x7bC\x7d]*")
      (((rustSplit isAsciiPunct word.toList).filter (fun s => !s.isEmpty)).map
        (fun part => create_word_pattern config (String.mk part)))
  else
    create_word_pattern config word

/-- Accumulator-style embedding of Rust `str::split_whitespace`: maximal
non-whitespace runs, in order, never producing an empty run. -/
def splitWsAux : List Char → List Char → List (List Char)
  | [], acc => if acc.isEmpty then [] else [acc.reverse]
  | c :: rest, acc =>
    if isUnicodeWs c then
      if acc.isEmpty then splitWsAux rest [] else acc.reverse :: splitWsAux rest []
    else
      splitWsAux rest (c :: acc)

/-- Embedding of Rust `str::split_whitespace`. -/
def splitWs (l : List Char) : List (List Char) := splitWsAux l []

/-- Embedding of Rust `str::trim`: drop Unicode whitespace from both ends. -/
def rustTrim (l : List Char) : List Char :=
  ((l.dropWhile isUnicodeWs).reverse.dropWhile isUnicodeWs).reverse

/-- Embedding of `create_fuzzy_pattern` (src/src/lib.rs lines 115-173).
The minimum-word-length check of lines 133-142 only emits a log warning and
never affects control flow or output, so it contributes nothing here beyond
the fact that `min_word_length` is read by no other expression. -/
def create_fuzzy_pattern (search_term : String) (config : FuzzyConfig) :
    Except FuzzyError String :=
  if (rustTrim search_term.toList).isEmpty then
    .error .EmptyPattern
  else
    let words := (splitWs search_term.toList).filter (fun w => !w.isEmpty)
    if words.isEmpty then
      .error .EmptyPattern
    else
      let wordPats := words.map
        (fun w => word_pattern_with_punct config (String.mk w))
      let case_flag := if !config.case_sensitive then "(?i)" else ""
      if wordPats.length > 1 then
        .ok (case_flag ++ "(?s).*?" ++
          joinSep ("[\\s\\p\x7bZ\x7d\\p\x7bC\x7d]+.*?") wordPats ++ ".*?")
      else
        .ok (case_flag ++ "(?s).*?" ++ wordPats.headD ("") ++ ".*?")

/-- Embedding of `FuzzyConfig::build_pattern` (src/src/lib.rs lines 103-105). -/
def FuzzyConfig.build_pattern (config : FuzzyConfig) : Except FuzzyError String :=
  create_fuzzy_pattern config.search_term config

/-- All-default configuration for a given term, as built by
`FuzzyConfig::builder().search_term(term).build()`. -/
def defaultConfig (t : String) : FuzzyConfig := { search_term := t }

/-- Embedding of `fuzzy_search_pattern` (src/src/lib.rs lines 297-303):
build with the all-default configuration and swallow any error into the
empty string. -/
def fuzzy_search_pattern (search_term : String) : String :=
  match (defaultConfig search_term).build_pattern with
  | .ok p => p
  | .error _ => ""

/-- Configurations reachable through the builder: the ratio setter clamps
`required_char_ratio` to [0,1], and the struct fields are private, so every
Rust `FuzzyConfig` value satisfies this. -/
def FuzzyConfig.Valid (config : FuzzyConfig) : Prop :=
  0 ≤ config.required_char_ratio ∧ config.required_char_ratio ≤ 1

/-- ASCII letter, as the specification's Character Encoder section uses the
term (spec section 4.3). -/
def isAsciiLetter (c : Char) : Bool :=
  (65 ≤ cp c && cp c ≤ 90) || (97 ≤ cp c && cp c ≤ 122)

/-- Tail part of a separator-joined concatenation: every fragment preceded
by the separator. -/
def joinSepTail (sep : String) : List String → String
  | [] => ""
  | f :: rest => sep ++ f ++ joinSepTail sep rest

/-- Maximal punctuation-free sub-runs of a word, in order, with the
punctuation characters dropped — the specification's description of
punctuation segmentation (spec section 4.2), written independently of the
Rust `str::split` + filter formulation. -/
def punctRuns : List Char → List (List Char)
  | [] => []
  | c :: rest =>
    if isAsciiPunct c then punctRuns rest
    else
      match rest with
      | [] => [[c]]
      | d :: _ =>
        if isAsciiPunct d then [c] :: punctRuns rest
        else
          match punctRuns rest with
          | [] => [[c]]
          | r :: rs => (c :: r) :: rs

/-!
Modelled from the spec: the matching engine that consumes the emitted
pattern is an external collaborator (spec sections 1 and 6), so it is not
part of src/.  The mini-language the engine must support — literals,
escapes, character classes (including the classes for whitespace, separator
and control characters), optional and non-capturing groups, bounded
repetition, lazy wildcards and the case-insensitivity / dot-all flags — is
modelled below by a small parser and a nondeterministic matcher.
`re_is_match p t` answers whether pattern `p` matches anywhere in `t`
(the emitted patterns begin and end with an unanchored lazy wildcard, so
full-string and anywhere semantics coincide).
-/

/-- Unicode separator categories Zs, Zl, Zp (the regex class for `Z`). -/
def isCatZ (c : Char) : Bool :=
  let n := cp c
  n == 32 || n == 160 || n == 5760 || (8192 ≤ n && n ≤ 8202) ||
  n == 8232 || n == 8233 || n == 8239 || n == 8287 || n == 12288

/-- Unicode control/format/private-use categories Cc, Cf, Co (the regex
class for `C`); surrogates are not valid scalar values and unassigned code
points (Cn) are omitted — no theorem below depends on them. -/
def isCatC (c : Char) : Bool :=
  let n := cp c
  n ≤ 31 || (127 ≤ n && n ≤ 159) || n == 173 ||
  (1536 ≤ n && n ≤ 1541) || n == 1564 || n == 1757 || n == 1807 ||
  n == 2274 || n == 6158 || (8203 ≤ n && n ≤ 8207) ||
  (8234 ≤ n && n ≤ 8238) || (8288 ≤ n && n ≤ 8292) ||
  (8294 ≤ n && n ≤ 8303) || n == 65279 || (65529 ≤ n && n ≤ 65531) ||
  (57344 ≤ n && n ≤ 63743) || (983040 ≤ n && n ≤ 1048573) ||
  (1048576 ≤ n && n ≤ 1114109)

/-- One alternative inside a character class: a literal character or one of
the named classes used by the emitted patterns. -/
inductive CItem where
  | lit (c : Char)
  | spaceCls
  | zCls
  | cCls
deriving DecidableEq, Repr

/-- Quantifier attached to an element (lazy variants collapse onto the
greedy ones: laziness changes match priority, never matchability). -/
inductive Quant where
  | one
  | opt
  | star
  | plus
  | bounded (lo hi : Nat)
deriving DecidableEq, Repr

/-- One quantified element of a pattern: character class, wildcard dot,
literal, or non-capturing group. -/
inductive RElem where
  | cls (neg : Bool) (items : List CItem) (q : Quant)
  | dot (q : Quant)
  | lit (c : Char) (q : Quant)
  | group (items : List RElem) (q : Quant)

/-- Quantifier of an element. -/
def quantOf : RElem → Quant
  | .cls _ _ q => q
  | .dot q => q
  | .lit _ q => q
  | .group _ q => q

/-- Parse the items of a character class body, up to the closing bracket. -/
def parseCItems : Nat → List Char → Option (List CItem × List Char)
  | 0, _ => none
  | _ + 1, ']' :: rest => some ([], rest)
  | fuel + 1, '\\' :: 's' :: rest =>
    (parseCItems fuel rest).map (fun r => (CItem.spaceCls :: r.1, r.2))
  | fuel + 1, '\\' :: 'p' :: '\x7b' :: 'Z' :: '\x7d' :: rest =>
    (parseCItems fuel rest).map (fun r => (CItem.zCls :: r.1, r.2))
  | fuel + 1, '\\' :: 'p' :: '\x7b' :: 'C' :: '\x7d' :: rest =>
    (parseCItems fuel rest).map (fun r => (CItem.cCls :: r.1, r.2))
  | fuel + 1, '\\' :: c :: rest =>
    (parseCItems fuel rest).map (fun r => (CItem.lit c :: r.1, r.2))
  | _ + 1, ['\\'] => none
  | fuel + 1, c :: rest =>
    (parseCItems fuel rest).map (fun r => (CItem.lit c :: r.1, r.2))
  | _, [] => none

/-- Parse a run of decimal digits. -/
def parseDigits (l : List Char) : Option (Nat × List Char) :=
  let ds := l.takeWhile isAsciiDigit
  if ds.isEmpty then none
  else some (ds.foldl (fun n c => 10 * n + (cp c - 48)) 0, l.dropWhile isAsciiDigit)

/-- Parse an optional quantifier after an atom; lazy markers are absorbed. -/
def parseQuantF : List Char → Quant × List Char
  | '?' :: '?' :: rest => (.opt, rest)
  | '?' :: rest => (.opt, rest)
  | '*' :: '?' :: rest => (.star, rest)
  | '*' :: rest => (.star, rest)
  | '+' :: '?' :: rest => (.plus, rest)
  | '+' :: rest => (.plus, rest)
  | '\x7b' :: rest =>
    match parseDigits rest with
    | some (lo, ',' :: r2) =>
      match parseDigits r2 with
      | some (hi, '\x7d' :: '?' :: r3) => (.bounded lo hi, r3)
      | some (hi, '\x7d' :: r3) => (.bounded lo hi, r3)
      | _ => (.one, '\x7b' :: rest)
    | _ => (.one, '\x7b' :: rest)
  | rest => (.one, rest)

mutual

/-- Parse a sequence of quantified elements, stopping at a closing
parenthesis or the end of input. -/
def parseSeq : Nat → List Char → Option (List RElem × List Char)
  | 0, _ => none
  | _ + 1, [] => some ([], [])
  | _ + 1, ')' :: rest => some ([], ')' :: rest)
  | fuel + 1, l =>
    match parseElem fuel l with
    | none => none
    | some (e, rest) =>
      match parseSeq fuel rest with
      | none => none
      | some (es, rest2) => some (e :: es, rest2)

/-- Parse one atom together with its quantifier. -/
def parseElem : Nat → List Char → Option (RElem × List Char)
  | 0, _ => none
  | fuel + 1, '(' :: '?' :: ':' :: rest =>
    (match parseSeq fuel rest with
     | some (its, ')' :: rest2) =>
       let qr := parseQuantF rest2
       some (RElem.group its qr.1, qr.2)
     | _ => none)
  | _ + 1, '[' :: '^' :: rest =>
    (match parseCItems (rest.length + 1) rest with
     | some (cs, rest2) =>
       let qr := parseQuantF rest2
       some (RElem.cls true cs qr.1, qr.2)
     | none => none)
  | _ + 1, '[' :: rest =>
    (match parseCItems (rest.length + 1) rest with
     | some (cs, rest2) =>
       let qr := parseQuantF rest2
       some (RElem.cls false cs qr.1, qr.2)
     | none => none)
  | _ + 1, '\\' :: c :: rest =>
    let qr := parseQuantF rest
    some (RElem.lit c qr.1, qr.2)
  | _ + 1, ['\\'] => none
  | _ + 1, '.' :: rest =>
    let qr := parseQuantF rest
    some (RElem.dot qr.1, qr.2)
  | _ + 1, c :: rest =>
    if c == ')' || c == ']' || c == '?' || c == '*' || c == '+' ||
       c == '|' || c == '\x7b' || c == '(' then
      none
    else
      let qr := parseQuantF rest
      some (RElem.lit c qr.1, qr.2)
  | _, [] => none

end

/-- Parse the leading `(?i)` / `(?s)` flag tokens; returns the
case-insensitive flag, the dot-all flag and the remaining input. -/
def parseFlags : List Char → Bool × Bool × List Char
  | '(' :: '?' :: 'i' :: ')' :: rest =>
    let r := parseFlags rest
    (true, r.2.1, r.2.2)
  | '(' :: '?' :: 's' :: ')' :: rest =>
    let r := parseFlags rest
    (r.1, true, r.2.2)
  | l => (false, false, l)

/-- Compile a pattern string: flags followed by a full-input sequence. -/
def compilePattern (p : String) : Option (Bool × Bool × List RElem) :=
  let f := parseFlags p.toList
  match parseSeq (4 * (f.2.2.length + 1)) f.2.2 with
  | some (items, []) => some (f.1, f.2.1, items)
  | _ => none

/-- Character comparison, folding case when the `(?i)` flag is active (the
letters in the emitted patterns are ASCII, where this fold is exact). -/
def charEqCi (ci : Bool) (d c : Char) : Bool :=
  if ci then d.toLower == c.toLower else d == c

/-- Does one class alternative accept a character? -/
def citemMatch (ci : Bool) : CItem → Char → Bool
  | .lit d, c => charEqCi ci d c
  | .spaceCls, c => isUnicodeWs c
  | .zCls, c => isCatZ c
  | .cCls, c => isCatC c

mutual

/-- Remainders after matching the element's atom exactly once (its
quantifier is ignored here). -/
def remsOnce (ci dotall : Bool) : Nat → RElem → List Char → List (List Char)
  | 0, _, _ => []
  | _ + 1, .cls _ _ _, [] => []
  | _ + 1, .cls neg its _, c :: r =>
    if (its.any fun it => citemMatch ci it c) != neg then [r] else []
  | _ + 1, .dot _, [] => []
  | _ + 1, .dot _, c :: r => if dotall || !(c == '\n') then [r] else []
  | _ + 1, .lit _ _, [] => []
  | _ + 1, .lit d _, c :: r => if charEqCi ci d c then [r] else []
  | fuel + 1, .group its _, s => remsSeq ci dotall fuel its s

/-- Remainders after zero or more repetitions of the element's atom. -/
def remsStar (ci dotall : Bool) : Nat → RElem → List Char → List (List Char)
  | 0, _, _ => []
  | fuel + 1, e, s =>
    s :: ((remsOnce ci dotall fuel e s).map (remsStar ci dotall fuel e)).flatten

/-- Remainders after between `lo` and `hi` repetitions of the atom. -/
def remsReps (ci dotall : Bool) :
    Nat → Nat → Nat → RElem → List Char → List (List Char)
  | 0, _, _, _, _ => []
  | _ + 1, 0, 0, _, s => [s]
  | fuel + 1, 0, hi + 1, e, s =>
    s :: ((remsOnce ci dotall fuel e s).map (remsReps ci dotall fuel 0 hi e)).flatten
  | _ + 1, _ + 1, 0, _, _ => []
  | fuel + 1, lo + 1, hi + 1, e, s =>
    ((remsOnce ci dotall fuel e s).map (remsReps ci dotall fuel lo hi e)).flatten

/-- Remainders after matching one quantified element. -/
def remsElem (ci dotall : Bool) : Nat → RElem → List Char → List (List Char)
  | 0, _, _ => []
  | fuel + 1, e, s =>
    match quantOf e with
    | .one => remsOnce ci dotall fuel e s
    | .opt => s :: remsOnce ci dotall fuel e s
    | .star => remsStar ci dotall fuel e s
    | .plus => ((remsOnce ci dotall fuel e s).map (remsStar ci dotall fuel e)).flatten
    | .bounded lo hi => remsReps ci dotall fuel lo hi e s

/-- Remainders after matching a sequence of elements. -/
def remsSeq (ci dotall : Bool) : Nat → List RElem → List Char → List (List Char)
  | 0, _, _ => []
  | _ + 1, [], s => [s]
  | fuel + 1, e :: rest, s =>
    ((remsElem ci dotall fuel e s).map (remsSeq ci dotall fuel rest)).flatten

end

/-- Conforming-engine match test: compile the pattern and ask whether some
way of reading it consumes the entire subject text.  The fuel bounds the
recursion depth; it exceeds any depth reachable on the given inputs. -/
def re_is_match (pattern text : String) : Bool :=
  match compilePattern pattern with
  | none => false
  | some (ci, dotall, items) =>
    (remsSeq ci dotall ((pattern.length + text.length + 8) * 8) items
      text.toList).any (fun r => r.isEmpty)

/-- The compiled form of the flexible separator fragment emitted between
punctuation-free sub-runs: a starred character class of whitespace,
separator and control characters. -/
def sepElem : RElem :=
  RElem.cls false [CItem.spaceCls, CItem.zCls, CItem.cCls] Quant.star

/-!
Lemmas relating the loop-style string building of the source to the
declarative joined form, and characterizing segmentation.
-/

lemma joinSep_eq_tail (sep f : String) (rest : List String) :
    joinSep sep (f :: rest) = f ++ joinSepTail sep rest := by
  induction rest generalizing f with
  | nil => simp [joinSep, joinSepTail]
  | cons r rs ih =>
    simp only [joinSep, joinSepTail, ih, String.append_assoc]

lemma loop_foldl_from (sep s : String) (l : List String) :
    (l.foldl (fun p c => (p.1 ++ (if p.2 then sep else "") ++ c, true))
      (s, true)).1 = s ++ joinSepTail sep l := by
  induction l generalizing s with
  | nil => simp [joinSepTail]
  | cons c cs ih =>
    rw [List.foldl_cons]
    have hstep :
        (((s, true).1 ++ (if (s, true).2 then sep else "") ++ c, true) :
          String × Bool) = (s ++ sep ++ c, true) := by
      simp
    rw [hstep, ih, joinSepTail]
    simp [String.append_assoc]

lemma loopAppend_eq_joinSep (sep : String) (l : List String) :
    loopAppend sep l = joinSep sep l := by
  cases l with
  | nil => rfl
  | cons f rest =>
    simp only [loopAppend, List.foldl_cons]
    have hstep : (("" : String) ++ (if false then sep else "") ++ f) = f := by
      simp
    rw [hstep, loop_foldl_from, joinSep_eq_tail]

lemma splitWsAux_ne_nil (l : List Char) :
    ∀ acc, acc ≠ [] → splitWsAux l acc ≠ [] := by
  induction l with
  | nil =>
    intro acc h
    simp [splitWsAux, List.isEmpty_iff, h]
  | cons c rest ih =>
    intro acc h
    simp only [splitWsAux]
    by_cases hws : isUnicodeWs c
    · simp [hws, List.isEmpty_iff, h]
    · simp only [hws, Bool.false_eq_true, if_false]
      exact ih (c :: acc) (List.cons_ne_nil c acc)

lemma splitWsAux_mem_ne_nil (l : List Char) :
    ∀ acc w, w ∈ splitWsAux l acc → w ≠ [] := by
  induction l with
  | nil =>
    intro acc w hw
    by_cases hacc : acc = []
    · simp [splitWsAux, hacc] at hw
    · simp [splitWsAux, List.isEmpty_iff, hacc] at hw
      simp [hw, hacc]
  | cons c rest ih =>
    intro acc w hw
    simp only [splitWsAux] at hw
    by_cases hws : isUnicodeWs c
    · simp only [hws, if_true] at hw
      by_cases hacc : acc = []
      · simp only [hacc, List.isEmpty_nil, if_true] at hw
        exact ih [] w hw
      · simp only [List.isEmpty_iff, hacc, if_false] at hw
        rcases List.mem_cons.mp hw with h1 | h2
        · simp [h1, hacc]
        · exact ih [] w h2
    · simp only [hws, Bool.false_eq_true, if_false] at hw
      exact ih (c :: acc) w hw

lemma splitWs_eq_nil_iff (l : List Char) :
    splitWs l = [] ↔ ∀ c ∈ l, isUnicodeWs c = true := by
  unfold splitWs
  induction l with
  | nil => simp [splitWsAux]
  | cons c rest ih =>
    by_cases hws : isUnicodeWs c
    · simp [splitWsAux, hws, ih]
    · have hne := splitWsAux_ne_nil rest [c] (List.cons_ne_nil c [])
      simp [splitWsAux, hws, hne]

lemma rustTrim_eq_nil_iff (l : List Char) :
    rustTrim l = [] ↔ ∀ c ∈ l, isUnicodeWs c = true := by
  unfold rustTrim
  rw [List.reverse_eq_nil_iff, List.dropWhile_eq_nil_iff]
  constructor
  · intro h c hc
    have hsplit := List.takeWhile_append_dropWhile
      (p := isUnicodeWs) (l := l)
    rw [← hsplit] at hc
    rcases List.mem_append.mp hc with h1 | h2
    · exact List.mem_takeWhile_imp h1
    · exact h c (List.mem_reverse.mpr h2)
  · intro h x hx
    exact h x ((List.dropWhile_sublist _).subset (List.mem_reverse.mp hx))

lemma filter_splitWs (l : List Char) :
    (splitWs l).filter (fun w => !w.isEmpty) = splitWs l := by
  refine List.filter_eq_self.mpr (fun w hw => ?_)
  have := splitWsAux_mem_ne_nil l [] w hw
  simp [List.isEmpty_iff, this]

/-- Structure of every successful result of `create_fuzzy_pattern`: the
case flag, the dot-all flag, a leading lazy wildcard, the word patterns
joined by the inter-word separator, and a trailing lazy wildcard. -/
lemma create_fuzzy_pattern_ok (t : String) (cfg : FuzzyConfig)
    (h : ¬ ∀ c ∈ t.toList, isUnicodeWs c = true) :
    create_fuzzy_pattern t cfg = .ok (
      (if !cfg.case_sensitive then "(?i)" else "") ++ "(?s).*?" ++
      joinSep ("[\\s\\p\x7bZ\x7d\\p\x7bC\x7d]+.*?")
        ((splitWs t.toList).map
          (fun w => word_pattern_with_punct cfg (String.mk w))) ++ ".*?") := by
  have htrim : (rustTrim t.toList).isEmpty = false := by
    rw [Bool.eq_false_iff]
    simp only [ne_eq, List.isEmpty_iff, rustTrim_eq_nil_iff]
    exact h
  have hsplit : splitWs t.toList ≠ [] := by
    rw [ne_eq, splitWs_eq_nil_iff]
    exact h
  unfold create_fuzzy_pattern
  rw [htrim]
  simp only [Bool.false_eq_true, if_false, filter_splitWs]
  rcases hws : splitWs t.toList with _ | ⟨w, ws⟩
  · exact absurd hws hsplit
  · rcases ws with _ | ⟨w2, ws2⟩
    · simp [joinSep]
    · simp [joinSep]

lemma rustSplit_ne_nil (p : Char → Bool) (l : List Char) :
    rustSplit p l ≠ [] := by
  cases l with
  | nil => simp [rustSplit]
  | cons c rest =>
    simp only [rustSplit]
    by_cases hc : p c
    · simp [hc]
    · simp only [hc, Bool.false_eq_true, if_false]
      rcases h : rustSplit p rest with _ | ⟨s, ss⟩ <;> simp

/-- The non-empty segments of the Rust punctuation split are exactly the
maximal punctuation-free runs of the word. -/
lemma filter_rustSplit_eq_punctRuns (l : List Char) :
    (rustSplit isAsciiPunct l).filter (fun s => !s.isEmpty) = punctRuns l := by
  induction l with
  | nil => simp [rustSplit, punctRuns]
  | cons c rest ih =>
    by_cases hc : isAsciiPunct c
    · rw [show punctRuns (c :: rest) = punctRuns rest by
        simp [punctRuns, hc]]
      rw [← ih]
      simp [rustSplit, hc]
    · cases rest with
      | nil => simp [rustSplit, punctRuns, hc]
      | cons d rest2 =>
        by_cases hd : isAsciiPunct d
        · have hsplit : rustSplit isAsciiPunct (c :: d :: rest2) =
              [c] :: rustSplit isAsciiPunct rest2 := by
            simp [rustSplit, hc, hd]
          have hruns : punctRuns (c :: d :: rest2) =
              [c] :: punctRuns (d :: rest2) := by
            simp [punctRuns, hc, hd]
          rw [hsplit, hruns, ← ih]
          simp [rustSplit, hd]
        · rcases hrest2 : rustSplit isAsciiPunct rest2 with _ | ⟨s, ss⟩
          · exact absurd hrest2 (rustSplit_ne_nil isAsciiPunct rest2)
          · have hdsplit : rustSplit isAsciiPunct (d :: rest2) =
                (d :: s) :: ss := by
              simp [rustSplit, hd, hrest2]
            have hsplit : rustSplit isAsciiPunct (c :: d :: rest2) =
                (c :: d :: s) :: ss := by
              simp [rustSplit, hc, hd, hrest2]
            have hih : (d :: s) :: ss.filter (fun s => !s.isEmpty) =
                punctRuns (d :: rest2) := by
              rw [← ih, hdsplit]
              simp [List.filter_cons]
            have hunfold : punctRuns (c :: d :: rest2) =
                match punctRuns (d :: rest2) with
                | [] => [[c]]
                | r :: rs => (c :: r) :: rs := by
              conv_lhs => rw [punctRuns]
              simp [hc, hd]
            have hruns : punctRuns (c :: d :: rest2) =
                (c :: d :: s) :: ss.filter (fun s => !s.isEmpty) := by
              rw [hunfold, ← hih]
            rw [hsplit, hruns]
            simp [List.filter_cons]

lemma isAsciiLetter_range (c : Char) (h : isAsciiLetter c = true) :
    (65 ≤ cp c ∧ cp c ≤ 90) ∨ (97 ≤ cp c ∧ cp c ≤ 122) := by
  simpa [isAsciiLetter, Bool.or_eq_true, Bool.and_eq_true,
    decide_eq_true_eq] using h

lemma letter_encoder_guard (c : Char) (h : isAsciiLetter c = true) :
    (isAsciiPunct c || isAsciiDigit c || !isAsciiChar c) = false := by
  have hn := isAsciiLetter_range c h
  simp [isAsciiPunct, isAsciiDigit, isAsciiChar]
  obtain ⟨h1, h2⟩ | ⟨h1, h2⟩ := hn <;> omega

lemma letter_not_meta (c : Char) (h : isAsciiLetter c = true) :
    isMeta c = false := by
  have hn := isAsciiLetter_range c h
  simp only [isMeta, Bool.or_eq_false_iff, beq_eq_false_iff_ne, ne_eq]
  obtain ⟨h1, h2⟩ | ⟨h1, h2⟩ := hn <;> omega

lemma regex_escape_single_of_not_meta (c : Char) (h : isMeta c = false) :
    regex_escape (String.mk [c]) = String.mk [c] := by
  simp [regex_escape, escape_chars, String.toList, h]

lemma punctRuns_all_punct (l : List Char)
    (h : ∀ c ∈ l, isAsciiPunct c = true) : punctRuns l = [] := by
  induction l with
  | nil => rfl
  | cons c rest ih =>
    have hc : isAsciiPunct c = true := h c (List.mem_cons_self c rest)
    have hrest : ∀ d ∈ rest, isAsciiPunct d = true :=
      fun d hd => h d (List.mem_cons_of_mem c hd)
    simp only [punctRuns, hc, if_true]
    exact ih hrest

/-!
Claim theorems.  Each theorem names the claim it settles; claim C1 is
settled at the end of the file via the modelled matching engine.
-/

/-- C2: `build_pattern` fails with `EmptyPattern` exactly when the search
term is empty or whitespace-only after trimming, and returns a pattern
string for every other term under every builder-constructible
configuration.  (The detection happens before any pattern text is built:
in the embedding, the whitespace test guards the whole function body.) -/
theorem empty_pattern_iff_blank (t : String) (cfg : FuzzyConfig)
    (hv : cfg.Valid) :
    (create_fuzzy_pattern t cfg = .error .EmptyPattern ↔
      ∀ c ∈ t.toList, isUnicodeWs c = true) ∧
    ((¬ ∀ c ∈ t.toList, isUnicodeWs c = true) →
      ∃ p, create_fuzzy_pattern t cfg = .ok p) := by
  by_cases h : ∀ c ∈ t.toList, isUnicodeWs c = true
  · refine ⟨⟨fun _ => h, fun _ => ?_⟩, fun hc => absurd h hc⟩
    unfold create_fuzzy_pattern
    have htrim : (rustTrim t.toList).isEmpty = true := by
      simp only [List.isEmpty_iff, rustTrim_eq_nil_iff]
      exact h
    rw [htrim]
    simp only [if_true]
  · have hok := create_fuzzy_pattern_ok t cfg h
    refine ⟨⟨fun he => ?_, fun hws => absurd hws h⟩, fun _ => ⟨_, hok⟩⟩
    rw [hok] at he
    cases he

/-- C2 witness: a whitespace-only term errors with `EmptyPattern`, while a
non-blank term produces a pattern, both under the default configuration. -/
theorem empty_pattern_iff_blank_witness :
    create_fuzzy_pattern ("  ") (defaultConfig ("  ")) =
      .error .EmptyPattern ∧
    ∃ p, create_fuzzy_pattern ("hi") (defaultConfig ("hi")) = .ok p := by
  constructor
  · exact (empty_pattern_iff_blank ("  ") (defaultConfig ("  "))
      (by constructor <;> norm_num [defaultConfig, FuzzyConfig.Valid])).1.mpr
      (by decide)
  · exact (empty_pattern_iff_blank ("hi") (defaultConfig ("hi"))
      (by constructor <;> norm_num [defaultConfig, FuzzyConfig.Valid])).2
      (by decide)

/-- C3: Gap Policy — the fragment between consecutive required characters
is empty when `max_char_gap` is 0, a bounded non-whitespace run for gaps
from 1 to 10, and a bounded any-character run for gaps above 10. -/
theorem gap_policy_fragment (g : Nat) :
    (g = 0 → between_pattern g = "") ∧
    (0 < g → g ≤ 10 →
      between_pattern g = "[^\\s]\x7b0," ++ toString g ++ "\x7d") ∧
    (10 < g → between_pattern g = ".\x7b0," ++ toString g ++ "\x7d") := by
  unfold between_pattern
  refine ⟨fun h => by simp [h], fun h1 h2 => ?_, fun h => ?_⟩
  · rw [if_pos h1, if_neg (by omega)]
  · rw [if_pos (by omega), if_pos h]

/-- C3 witness: concrete gap fragments at gaps 0, 7 and 11. -/
theorem gap_policy_fragment_witness :
    between_pattern 0 = "" ∧ between_pattern 7 = "[^\\s]\x7b0,7\x7d" ∧
    between_pattern 11 = ".\x7b0,11\x7d" := by
  refine ⟨(gap_policy_fragment 0).1 rfl, ?_, ?_⟩
  · rw [(gap_policy_fragment 7).2.1 (by omega) (by omega)]
    decide
  · rw [(gap_policy_fragment 11).2.2 (by omega)]
    decide

/-- C5: Character Encoder — a punctuation, digit or non-ASCII character
becomes its escaped literal in an optional group; an ASCII letter becomes
exactly its (un-)escaped literal when case-sensitive, and a two-element
character class of its lowercase and uppercase forms otherwise. -/
theorem character_encoder_by_class (c : Char) :
    ((isAsciiPunct c || isAsciiDigit c || !isAsciiChar c) = true →
      ∀ cs, charFragment cs c = "(?:" ++ regex_escape (String.mk [c]) ++ ")?") ∧
    (isAsciiLetter c = true →
      charFragment true c = regex_escape (String.mk [c]) ∧
      charFragment true c = String.mk [c] ∧
      charFragment false c =
        "[" ++ String.mk [c.toLower] ++ String.mk [c.toUpper] ++ "]") := by
  constructor
  · intro h cs
    simp [charFragment, h]
  · intro h
    have hguard := letter_encoder_guard c h
    have hesc := regex_escape_single_of_not_meta c (letter_not_meta c h)
    refine ⟨?_, ?_, ?_⟩
    · simp [charFragment, hguard]
    · simp [charFragment, hguard, hesc]
    · simp [charFragment, hguard]

/-- C5 witness: the encoder evaluated on a letter, a punctuation character
and a digit. -/
theorem character_encoder_by_class_witness :
    charFragment false ('a') = "[aA]" ∧ charFragment true ('a') = "a" ∧
    charFragment false ('.') = "(?:\\.)?" ∧
    charFragment false ('7') = "(?:7)?" := by
  have ha := (character_encoder_by_class ('a')).2 (by decide)
  have hd := (character_encoder_by_class ('.')).1 (by decide) false
  have h7 := (character_encoder_by_class ('7')).1 (by decide) false
  refine ⟨?_, ?_, ?_, ?_⟩
  · rw [ha.2.2]
    decide
  · rw [ha.2.1]
  · rw [hd]
    decide
  · rw [h7]
    decide

/-- C7: Pattern Composer — `(?i)` is prepended exactly when matching is
case-insensitive, the body is wrapped in the dot-all flag and leading and
trailing lazy wildcards, and the word patterns are joined by a mandatory
separator run followed by a lazy wildcard (for a single word the join is
the word pattern itself). -/
theorem pattern_composer (t : String) (cfg : FuzzyConfig)
    (h : ¬ ∀ c ∈ t.toList, isUnicodeWs c = true) :
    create_fuzzy_pattern t cfg = .ok (
      (if cfg.case_sensitive then "" else "(?i)") ++ "(?s).*?" ++
      joinSep ("[\\s\\p\x7bZ\x7d\\p\x7bC\x7d]+.*?")
        ((splitWs t.toList).map
          (fun w => word_pattern_with_punct cfg (String.mk w))) ++ ".*?") := by
  rw [create_fuzzy_pattern_ok t cfg h]
  cases hcs : cfg.case_sensitive <;> simp

/-- C7 witness: composition at a concrete two-word term under defaults. -/
theorem pattern_composer_witness :
    create_fuzzy_pattern ("hi ho") (defaultConfig ("hi ho")) = .ok (
      (if (defaultConfig ("hi ho")).case_sensitive then "" else "(?i)") ++
      "(?s).*?" ++
      joinSep ("[\\s\\p\x7bZ\x7d\\p\x7bC\x7d]+.*?")
        ((splitWs ("hi ho").toList).map
          (fun w => word_pattern_with_punct (defaultConfig ("hi ho"))
            (String.mk w))) ++ ".*?") :=
  pattern_composer ("hi ho") (defaultConfig ("hi ho")) (by decide)

/-- C9: `min_word_length` is causally inert — two configurations agreeing
on everything except `min_word_length` produce identical `build_pattern`
results (the field is read only by a diagnostic log statement). -/
theorem min_word_length_inert (a b : FuzzyConfig)
    (hs : a.search_term = b.search_term)
    (hr : a.required_char_ratio = b.required_char_ratio)
    (hc : a.case_sensitive = b.case_sensitive)
    (hg : a.max_char_gap = b.max_char_gap) :
    a.build_pattern = b.build_pattern := by
  have hw : ∀ w, create_word_pattern a w = create_word_pattern b w := by
    intro w
    unfold create_word_pattern
    rw [hr, hc, hg]
  have hwp : ∀ w, word_pattern_with_punct a w = word_pattern_with_punct b w := by
    intro w
    unfold word_pattern_with_punct
    simp only [hw]
  unfold FuzzyConfig.build_pattern
  rw [hs]
  unfold create_fuzzy_pattern
  simp only [hwp, hc]

/-- C9 witness: extreme `min_word_length` values, identical output. -/
theorem min_word_length_inert_witness :
    FuzzyConfig.build_pattern
        { search_term := "hello world", min_word_length := 0 } =
      FuzzyConfig.build_pattern
        { search_term := "hello world", min_word_length := 1000 } :=
  min_word_length_inert _ _ rfl rfl rfl rfl

/-- C10: a word made entirely of ASCII punctuation contributes an empty
sub-pattern, and a term whose only word is all-punctuation (such as three
dots) succeeds with the degenerate default pattern. -/
theorem all_punct_word_degenerate (cfg : FuzzyConfig) (w : String)
    (h1 : w.toList ≠ []) (h2 : ∀ c ∈ w.toList, isAsciiPunct c = true) :
    word_pattern_with_punct cfg w = "" ∧
    create_fuzzy_pattern ("...") (defaultConfig ("...")) =
      .ok ("(?i)(?s).*?.*?") := by
  constructor
  · unfold word_pattern_with_punct
    have hany : w.toList.any isAsciiPunct = true := by
      rcases hl : w.toList with _ | ⟨c, rest⟩
      · exact absurd hl h1
      · simp only [List.any_cons, Bool.or_eq_true]
        exact Or.inl (h2 c (by rw [hl]; exact List.mem_cons_self c rest))
    rw [hany]
    simp only [if_true, filter_rustSplit_eq_punctRuns, punctRuns_all_punct
      w.toList h2]
    rfl
  · rfl

/-- C10 witness: the all-punctuation word of the concrete term. -/
theorem all_punct_word_degenerate_witness :
    word_pattern_with_punct (defaultConfig ("...")) ("...") = "" ∧
    create_fuzzy_pattern ("...") (defaultConfig ("...")) =
      .ok ("(?i)(?s).*?.*?") :=
  all_punct_word_degenerate (defaultConfig ("...")) ("...")
    (by decide) (by decide)

lemma create_fuzzy_pattern_blank (t : String) (cfg : FuzzyConfig)
    (h : ∀ c ∈ t.toList, isUnicodeWs c = true) :
    create_fuzzy_pattern t cfg = .error .EmptyPattern := by
  unfold create_fuzzy_pattern
  have htrim : (rustTrim t.toList).isEmpty = true := by
    simp only [List.isEmpty_iff, rustTrim_eq_nil_iff]
    exact h
  rw [htrim]
  simp only [if_true]

lemma composed_ne_empty (a b : String) :
    a ++ "(?s).*?" ++ b ++ ".*?" ≠ "" := by
  intro hcontra
  have hlen := congrArg String.length hcontra
  rw [String.length_append, String.length_append, String.length_append,
    show ("(?s).*?" : String).length = 7 from rfl,
    show (".*?" : String).length = 3 from rfl,
    show ("" : String).length = 0 from rfl] at hlen
  omega

/-- Declarative form of the multi-character word assembler: strict joining
for ratios above 0.9, otherwise a required prefix of
`ceil(length * ratio)` fragments joined by gap fragments, followed, when
any fragments remain, by one optional non-capturing group of individually
optional fragments, the whole wrapped in a non-capturing group. -/
lemma word_pattern_eq (cfg : FuzzyConfig) (w : String)
    (h : 2 ≤ w.toList.length) :
    create_word_pattern cfg w =
      (if cfg.required_char_ratio > 9/10 then
        "(?:" ++ joinSep (between_pattern cfg.max_char_gap)
          (w.toList.map (charFragment cfg.case_sensitive)) ++ ")"
      else
        "(?:" ++
          joinSep (between_pattern cfg.max_char_gap)
            ((w.toList.map (charFragment cfg.case_sensitive)).take
              (⌈(w.toList.length : ℚ) * cfg.required_char_ratio⌉.toNat)) ++
          (if ⌈(w.toList.length : ℚ) * cfg.required_char_ratio⌉.toNat <
              w.toList.length then
            "(?:" ++ joinSep (between_pattern cfg.max_char_gap)
              (((w.toList.map (charFragment cfg.case_sensitive)).drop
                (⌈(w.toList.length : ℚ) * cfg.required_char_ratio⌉.toNat)).map
                (fun f => f ++ "?")) ++ ")?"
          else "") ++ ")") := by
  unfold create_word_pattern
  rw [if_neg (by omega)]
  simp only [loopAppend_eq_joinSep, List.length_map]
  by_cases hq : cfg.required_char_ratio > 9/10
  · rw [if_pos hq, if_pos hq]
  · rw [if_neg hq, if_neg hq]
    by_cases hlt : ⌈(w.toList.length : ℚ) * cfg.required_char_ratio⌉.toNat <
        w.toList.length
    · rw [if_pos hlt]
      have hne : ((w.toList.map (charFragment cfg.case_sensitive)).drop
          ⌈(w.toList.length : ℚ) * cfg.required_char_ratio⌉.toNat).isEmpty =
          false := by
        rw [Bool.eq_false_iff, ne_eq, List.isEmpty_iff, List.drop_eq_nil_iff,
          List.length_map]
        omega
      rw [hne]
      simp [String.append_assoc]
    · rw [if_neg hlt]
      have he : ((w.toList.map (charFragment cfg.case_sensitive)).drop
          ⌈(w.toList.length : ℚ) * cfg.required_char_ratio⌉.toNat).isEmpty =
          true := by
        rw [List.isEmpty_iff, List.drop_eq_nil_iff, List.length_map]
        omega
      rw [he]
      simp

/-- Default-ratio required-prefix size for a two-character word. -/
lemma default_rc_two :
    (⌈((2 : Nat) : ℚ) * (1/2 : ℚ)⌉).toNat = 1 := by
  rw [show (⌈((2 : Nat) : ℚ) * (1/2 : ℚ)⌉ : ℤ) = 1 by
    rw [Int.ceil_eq_iff]
    norm_num]
  rfl

/-- The default word pattern of a two-character punctuation-free,
digit-free ASCII word: the first character is required, the second sits in
an optional group. -/
lemma create_word_pattern_two_default (t : String) (c d : Char) :
    create_word_pattern (defaultConfig t) (String.mk [c, d]) =
      "(?:" ++ charFragment false c ++ "(?:" ++ charFragment false d ++
        "?)?)" := by
  have hlist : (String.mk [c, d]).toList = [c, d] := rfl
  rw [word_pattern_eq (defaultConfig t) (String.mk [c, d])
    (by rw [hlist]; simp)]
  rw [show (defaultConfig t).required_char_ratio = 1/2 from rfl]
  rw [if_neg (by norm_num)]
  rw [hlist]
  rw [show (([c, d] : List Char).length) = 2 from rfl]
  rw [default_rc_two]
  simp only [List.map_cons, List.map_nil, List.take, List.drop, joinSep]
  rw [show (defaultConfig t).case_sensitive = false from rfl]
  rw [if_pos (by omega)]
  simp [String.append_assoc]

lemma build_pattern_hi :
    (defaultConfig ("hi")).build_pattern =
      .ok ("(?i)(?s).*?(?:[hH](?:[iI]?)?).*?") := by
  show create_fuzzy_pattern ("hi") (defaultConfig ("hi")) = _
  rw [create_fuzzy_pattern_ok ("hi") (defaultConfig ("hi")) (by decide)]
  rw [show splitWs (("hi" : String).toList) = [['h', 'i']] from rfl]
  simp only [List.map_cons, List.map_nil, joinSep]
  rw [show word_pattern_with_punct (defaultConfig ("hi"))
      (String.mk ['h', 'i']) =
      create_word_pattern (defaultConfig ("hi")) (String.mk ['h', 'i']) by
    unfold word_pattern_with_punct
    rw [if_neg (by decide)]]
  rw [create_word_pattern_two_default ("hi") 'h' 'i']
  rfl

/-- C8: `fuzzy_search_pattern` never fails — it returns the pattern of the
all-default `build_pattern` when that call succeeds, and the empty string
exactly when that call fails, which happens exactly for terms that are
empty or whitespace-only after trimming; the error is silently swallowed. -/
theorem fuzzy_search_pattern_total (t : String) :
    (∀ p, (defaultConfig t).build_pattern = .ok p →
      fuzzy_search_pattern t = p) ∧
    (fuzzy_search_pattern t = "" ↔
      (defaultConfig t).build_pattern = .error .EmptyPattern) ∧
    ((defaultConfig t).build_pattern = .error .EmptyPattern ↔
      ∀ c ∈ t.toList, isUnicodeWs c = true) := by
  have heval : ∀ p, (defaultConfig t).build_pattern = .ok p →
      fuzzy_search_pattern t = p := by
    intro p hp
    unfold fuzzy_search_pattern
    rw [hp]
  by_cases h : ∀ c ∈ t.toList, isUnicodeWs c = true
  · have herr : (defaultConfig t).build_pattern = .error .EmptyPattern :=
      create_fuzzy_pattern_blank t (defaultConfig t) h
    refine ⟨heval, ?_, ⟨fun _ => h, fun _ => herr⟩⟩
    unfold fuzzy_search_pattern
    rw [herr]
    simp
  · have hok := create_fuzzy_pattern_ok t (defaultConfig t) h
    have hokb : (defaultConfig t).build_pattern = .ok
        ((if !(defaultConfig t).case_sensitive then "(?i)" else "") ++
          "(?s).*?" ++
          joinSep ("[\\s\\p\x7bZ\x7d\\p\x7bC\x7d]+.*?")
            ((splitWs t.toList).map (fun w =>
              word_pattern_with_punct (defaultConfig t) (String.mk w))) ++
          ".*?") := hok
    refine ⟨heval, ?_, ?_⟩
    · constructor
      · intro he
        have hp := heval _ hokb
        rw [hp] at he
        exact absurd he (by
          simpa [String.append_assoc] using composed_ne_empty
            ((if !(defaultConfig t).case_sensitive then "(?i)" else ""))
            (joinSep ("[\\s\\p\x7bZ\x7d\\p\x7bC\x7d]+.*?")
              ((splitWs t.toList).map (fun w =>
                word_pattern_with_punct (defaultConfig t) (String.mk w)))))
      · intro herr
        rw [hokb] at herr
        cases herr
    · constructor
      · intro herr
        rw [hokb] at herr
        cases herr
      · intro hws
        exact absurd hws h

/-- C8 witness: a blank term swallows the error into the empty string, a
non-blank term returns the built pattern. -/
theorem fuzzy_search_pattern_total_witness :
    fuzzy_search_pattern (" ") = "" ∧
    fuzzy_search_pattern ("hi") = "(?i)(?s).*?(?:[hH](?:[iI]?)?).*?" := by
  constructor
  · exact (fuzzy_search_pattern_total (" ")).2.1.mpr
      ((fuzzy_search_pattern_total (" ")).2.2.mpr (by decide))
  · exact (fuzzy_search_pattern_total ("hi")).1
      ("(?i)(?s).*?(?:[hH](?:[iI]?)?).*?") build_pattern_hi

/-- C4: Word Pattern Assembler — for a word of at least two characters,
a ratio above 0.9 makes every fragment required, joined pairwise by the
gap fragment with no optional suffix; otherwise `required_count =
ceil(length * ratio)` fragments form the required prefix and the remaining
fragments, if any, become one non-capturing optional group of individually
optional fragments; a `required_count` of zero leaves the required prefix
empty (no clamp to one); the result is wrapped in a non-capturing group. -/
theorem word_pattern_assembler (cfg : FuzzyConfig) (w : String)
    (hlen : 2 ≤ w.toList.length) (hv : cfg.Valid) :
    create_word_pattern cfg w =
      (if cfg.required_char_ratio > 9/10 then
        "(?:" ++ joinSep (between_pattern cfg.max_char_gap)
          (w.toList.map (charFragment cfg.case_sensitive)) ++ ")"
      else
        "(?:" ++
          joinSep (between_pattern cfg.max_char_gap)
            ((w.toList.map (charFragment cfg.case_sensitive)).take
              (⌈(w.toList.length : ℚ) * cfg.required_char_ratio⌉.toNat)) ++
          (if ⌈(w.toList.length : ℚ) * cfg.required_char_ratio⌉.toNat <
              w.toList.length then
            "(?:" ++ joinSep (between_pattern cfg.max_char_gap)
              (((w.toList.map (charFragment cfg.case_sensitive)).drop
                (⌈(w.toList.length : ℚ) * cfg.required_char_ratio⌉.toNat)).map
                (fun f => f ++ "?")) ++ ")?"
          else "") ++ ")") :=
  word_pattern_eq cfg w hlen

/-- C4 witness: the default assembler output on the word of five letters
used throughout the source's test suite. -/
theorem word_pattern_assembler_witness :
    create_word_pattern (defaultConfig ("hello")) ("hello") =
      "(?:[hH][^\\s]\x7b0,10\x7d[eE][^\\s]\x7b0,10\x7d[lL](?:[lL]?[^\\s]\x7b0,10\x7d[oO]?)?)" := by
  rw [word_pattern_assembler (defaultConfig ("hello")) ("hello")
    (by decide) (by constructor <;> norm_num [defaultConfig])]
  rw [show (defaultConfig ("hello")).required_char_ratio = 1/2 from rfl]
  rw [if_neg (by norm_num)]
  rw [show (("hello" : String).toList.length) = 5 from rfl]
  rw [show (⌈((5 : Nat) : ℚ) * (1/2 : ℚ)⌉).toNat = 3 by
    rw [show (⌈((5 : Nat) : ℚ) * (1/2 : ℚ)⌉ : ℤ) = 3 by
      rw [Int.ceil_eq_iff]
      norm_num]
    rfl]
  rw [if_pos (by omega)]
  rfl

lemma build_pattern_abcd :
    create_fuzzy_pattern ("ab.cd") (defaultConfig ("ab.cd")) = .ok
      ("(?i)(?s).*?(?:[aA](?:[bB]?)?)[\\s\\p\x7bZ\x7d\\p\x7bC\x7d]*(?:[cC](?:[dD]?)?).*?") := by
  rw [create_fuzzy_pattern_ok ("ab.cd") (defaultConfig ("ab.cd"))
    (by decide)]
  rw [show splitWs (("ab.cd" : String).toList) =
    [['a', 'b', '.', 'c', 'd']] from rfl]
  simp only [List.map_cons, List.map_nil, joinSep]
  rw [show word_pattern_with_punct (defaultConfig ("ab.cd"))
      (String.mk ['a', 'b', '.', 'c', 'd']) =
      joinSep ("[\\s\\p\x7bZ\x7d\\p\x7bC\x7d]*")
        [create_word_pattern (defaultConfig ("ab.cd")) (String.mk ['a', 'b']),
         create_word_pattern (defaultConfig ("ab.cd"))
           (String.mk ['c', 'd'])] by
    unfold word_pattern_with_punct
    rw [if_pos (by decide)]
    rw [show ((rustSplit isAsciiPunct
        ((String.mk ['a', 'b', '.', 'c', 'd']).toList)).filter
        (fun s => !s.isEmpty)) = [['a', 'b'], ['c', 'd']] from rfl]
    simp only [List.map_cons, List.map_nil]]
  rw [create_word_pattern_two_default ("ab.cd") 'a' 'b',
    create_word_pattern_two_default ("ab.cd") 'c' 'd']
  rfl

/-- C1: reflexivity fails on the source.  The spec (and the source comment
on punctuation handling) require the emitted pattern to match the verbatim
term under the default configuration, for every non-blank term.  For the
term "ab.cd" the build succeeds with the pattern below, but no conforming
engine matches it against "ab.cd": the dot of the term is matched neither
by the inter-run separator class (whitespace, separator and control
characters only) nor by any character fragment of the two two-character
runs, which contain no gap fragments.  The first conjunct evaluates the
source at the failing input; the second evaluates the modelled conforming
engine on the resulting pattern. -/
theorem build_pattern_not_reflexive_on_punctuated_term :
    create_fuzzy_pattern ("ab.cd") (defaultConfig ("ab.cd")) = .ok
      ("(?i)(?s).*?(?:[aA](?:[bB]?)?)[\\s\\p\x7bZ\x7d\\p\x7bC\x7d]*(?:[cC](?:[dD]?)?).*?") ∧
    re_is_match
      ("(?i)(?s).*?(?:[aA](?:[bB]?)?)[\\s\\p\x7bZ\x7d\\p\x7bC\x7d]*(?:[cC](?:[dD]?)?).*?")
      ("ab.cd") = false :=
  ⟨build_pattern_abcd, rfl⟩

lemma flatten_map_singleton (X : List (List Char)) :
    (X.map (fun r => ([r] : List (List Char)))).flatten = X := by
  induction X with
  | nil => rfl
  | cons x xs ih => simp [ih]

/-- Semantics of the separator fragment under iterated matching: the
star of the whitespace/separator/control class consumes a string to
exhaustion exactly when every character belongs to one of those three
classes. -/
lemma remsStar_sep_nil_mem (l : List Char) :
    ∀ fuel, l.length + 1 ≤ fuel →
    ((([] : List Char) ∈ remsStar false false fuel sepElem l) ↔
      ∀ c ∈ l, (isUnicodeWs c || isCatZ c || isCatC c) = true) := by
  induction l with
  | nil =>
    intro fuel hf
    obtain ⟨f, rfl⟩ : ∃ f, fuel = f + 1 := ⟨fuel - 1, by omega⟩
    constructor
    · intro _ c hc
      exact absurd hc (List.not_mem_nil c)
    · intro _
      exact List.mem_cons_self _ _
  | cons c rest ih =>
    intro fuel hf
    have hlen : rest.length + 2 ≤ fuel := by
      simpa using hf
    obtain ⟨f2, rfl⟩ : ∃ f2, fuel = f2 + 2 := ⟨fuel - 2, by omega⟩
    have hstar : remsStar false false (f2 + 2) sepElem (c :: rest) =
        (c :: rest) ::
          ((remsOnce false false (f2 + 1) sepElem (c :: rest)).map
            (remsStar false false (f2 + 1) sepElem)).flatten := rfl
    have honce : remsOnce false false (f2 + 1) sepElem (c :: rest) =
        (if (isUnicodeWs c || (isCatZ c || (isCatC c || false))) != false
         then [rest] else []) := rfl
    have hcond : ((isUnicodeWs c || (isCatZ c || (isCatC c || false)))
        != false) = (isUnicodeWs c || isCatZ c || isCatC c) := by
      cases isUnicodeWs c <;> cases isCatZ c <;> cases isCatC c <;> rfl
    rw [hstar, honce, hcond]
    by_cases hc : (isUnicodeWs c || isCatZ c || isCatC c) = true
    · rw [if_pos hc]
      have hih := ih (f2 + 1) (by omega)
      simp only [List.map_cons, List.map_nil, List.flatten,
        List.append_nil, List.mem_cons]
      constructor
      · intro hmem
        rcases hmem with hmem | hmem
        · exact absurd hmem.symm (List.cons_ne_nil c rest)
        · intro x hx
          rcases hx with hx1 | hx2
          · rw [hx1]; exact hc
          · exact (hih.mp hmem) x hx2
      · intro hall
        exact Or.inr (hih.mpr (fun x hx => hall x (Or.inr hx)))
    · rw [if_neg hc]
      simp only [List.map_nil, List.flatten, List.mem_cons,
        List.not_mem_nil, or_false]
      constructor
      · intro hmem
        exact absurd hmem.symm (List.cons_ne_nil c rest)
      · intro hall
        exact absurd (hall c (Or.inl rfl)) hc

/-- The separator fragment, compiled by the conforming engine, matches a
string exactly when it consists solely of whitespace, separator and
control characters — in particular it matches no punctuation. -/
lemma re_is_match_sep_iff (s : String) :
    re_is_match ("[\\s\\p\x7bZ\x7d\\p\x7bC\x7d]*") s = true ↔
      ∀ c ∈ s.toList, (isUnicodeWs c || isCatZ c || isCatC c) = true := by
  have hre : re_is_match ("[\\s\\p\x7bZ\x7d\\p\x7bC\x7d]*") s =
      (remsSeq false false
        ((("[\\s\\p\x7bZ\x7d\\p\x7bC\x7d]*" : String).length + s.length + 8)
          * 8) [sepElem] s.toList).any (fun r => r.isEmpty) := by
    unfold re_is_match
    rw [show compilePattern ("[\\s\\p\x7bZ\x7d\\p\x7bC\x7d]*") =
      some (false, false, [sepElem]) from rfl]
  have hlens : s.toList.length = s.length := rfl
  rw [hre, show ("[\\s\\p\x7bZ\x7d\\p\x7bC\x7d]*" : String).length = 15
    from rfl]
  obtain ⟨f, hfeq⟩ : ∃ f, (15 + s.length + 8) * 8 = f + 2 :=
    ⟨(15 + s.length + 8) * 8 - 2, by omega⟩
  have hbound : s.toList.length + 1 ≤ f := by
    rw [hlens]
    omega
  rw [hfeq]
  have h1 : remsSeq false false (f + 2) [sepElem] s.toList =
      ((remsElem false false (f + 1) sepElem s.toList).map
        (remsSeq false false (f + 1) [])).flatten := rfl
  have h2 : remsElem false false (f + 1) sepElem s.toList =
      remsStar false false f sepElem s.toList := rfl
  have h3 : remsSeq false false (f + 1) ([] : List RElem) =
      fun r => ([r] : List (List Char)) :=
    funext fun r => rfl
  rw [h1, h2, h3, flatten_map_singleton, List.any_eq_true]
  constructor
  · rintro ⟨r, hr, hremp⟩
    rw [List.isEmpty_iff] at hremp
    rw [hremp] at hr
    exact (remsStar_sep_nil_mem s.toList f hbound).mp hr
  · intro hall
    exact ⟨[], (remsStar_sep_nil_mem s.toList f hbound).mpr hall, rfl⟩

/-- C6 counterexample: the claim as stated is false — the separator
fragment emitted between the sub-runs of "ab.cd" is the class of
whitespace, separator and control characters, and a conforming engine does
not match it against the punctuation character ".", though it does match
whitespace. -/
theorem punctuation_separator_counterexample :
    word_pattern_with_punct (defaultConfig ("ab.cd")) ("ab.cd") =
      "(?:[aA](?:[bB]?)?)" ++ "[\\s\\p\x7bZ\x7d\\p\x7bC\x7d]*" ++
        "(?:[cC](?:[dD]?)?)" ∧
    re_is_match ("[\\s\\p\x7bZ\x7d\\p\x7bC\x7d]*") (".") = false ∧
    re_is_match ("[\\s\\p\x7bZ\x7d\\p\x7bC\x7d]*") (" ") = true := by
  refine ⟨?_, rfl, rfl⟩
  unfold word_pattern_with_punct
  rw [if_pos (by decide)]
  rw [show ((rustSplit isAsciiPunct (("ab.cd" : String).toList)).filter
      (fun s => !s.isEmpty)) = [['a', 'b'], ['c', 'd']] from rfl]
  simp only [List.map_cons, List.map_nil]
  rw [create_word_pattern_two_default ("ab.cd") 'a' 'b',
    create_word_pattern_two_default ("ab.cd") 'c' 'd']
  rfl

/-- C6 (amended): a word containing ASCII punctuation is split into its
maximal punctuation-free runs (punctuation dropped), each non-empty run is
encoded independently through the word-pattern assembler, and the
sub-patterns are joined with a flexible separator fragment that matches
zero or more whitespace, separator and control characters — not
punctuation; a word with no punctuation is encoded as a single run.  The
second conjunct settles the separator's semantics against the modelled
conforming engine. -/
theorem punctuation_segmentation_amended (cfg : FuzzyConfig) (w s : String) :
    (word_pattern_with_punct cfg w =
      if w.toList.any isAsciiPunct then
        joinSep ("[\\s\\p\x7bZ\x7d\\p\x7bC\x7d]*")
          ((punctRuns w.toList).map
            (fun run => create_word_pattern cfg (String.mk run)))
      else create_word_pattern cfg w) ∧
    (re_is_match ("[\\s\\p\x7bZ\x7d\\p\x7bC\x7d]*") s = true ↔
      ∀ c ∈ s.toList, (isUnicodeWs c || isCatZ c || isCatC c) = true) := by
  refine ⟨?_, re_is_match_sep_iff s⟩
  unfold word_pattern_with_punct
  rw [← filter_rustSplit_eq_punctRuns]

end FuzzySearch
